import Mathlib

/-!
Shallow embedding of the `hole` archival relay (Rust sources: `db.rs`,
`writer.rs`, `policy.rs`, `http.rs`, `main.rs`) and proofs about the
spec's claims.  Paths, bytes and file contents are modelled as lists;
machine integers as `Nat` with explicit `% 2^w` where overflow matters.
-/

/-! ## Events

An event, as consumed by the core (identifier, creation timestamp,
kind, canonical JSON line).  `json` abstracts `Event::as_json` from the
upstream SDK (not part of this repository): one line of serialized JSON. -/

structure NEvent where
  id : Nat
  created_at : Nat
  kind : Nat
  json : String
deriving DecidableEq

/-! ## Byte helpers: little-endian u64 encoding (`u64::to_le_bytes` /
`u64::from_le_bytes` as used in `db.rs`). -/

def u64ToLeBytes (n : Nat) : List Nat :=
  (List.range 8).map (fun i => n / 256 ^ i % 256)

def leBytesToU64 (bs : List Nat) : Nat :=
  bs.foldr (fun b acc => acc * 256 + b) 0

/-! ## Path resolution (`FlatFileDatabase::get_file`, db.rs lines 79-91)

The Rust code computes `out_dir.join(&path[1..])` and serves the file
whenever `p.exists() && p.is_file()`; there is no rejection of `..` or
absolute components.  A filesystem is modelled as a partial map from
normalised absolute component lists to `isFile : Bool`; normalisation is
what the OS performs when `exists()` stats the path (`..` pops one
component, `.` and empty components vanish). -/

def splitPathAux (cur : List Char) : List Char → List String
  | [] => [String.mk cur.reverse]
  | c :: cs =>
    if c = '/' then String.mk cur.reverse :: splitPathAux [] cs
    else splitPathAux (c :: cur) cs

def splitPath (s : String) : List String := splitPathAux [] s.toList

def normalizePath (comps : List String) : List String :=
  comps.foldl
    (fun acc c =>
      if c = "" ∨ c = "." then acc
      else if c = ".." then acc.dropLast
      else acc ++ [c])
    []

structure ArchiveFileRec where
  path : List String
  size : Nat
deriving DecidableEq

def get_file (fs : List String → Option (Bool × Nat)) (outDir : List String)
    (path : String) : Option ArchiveFileRec :=
  let relChars := path.toList.drop 1
  let joined :=
    if relChars.headD ' ' = '/' then splitPathAux [] relChars
    else outDir ++ splitPathAux [] relChars
  let p := normalizePath joined
  match fs p with
  | some (isFile, size) => if isFile then some ⟨p, size⟩ else none
  | none => none

/-- Holds (as `true`) when `p` stays under the directory `outDir`,
component-wise. -/
def underDir : List String → List String → Bool
  | [], _ => true
  | d :: ds, p :: ps => d == p && underDir ds ps
  | _ :: _, [] => false

/-! ## Dedup index and save (`FlatFileDatabase::save_event` / `check_id`,
db.rs lines 123-161)

The sled index is an association list from event id to stored value
bytes; `insert` upserts, `contains_key` is a point lookup.  The live
archive file is a list of lines.  `writeOk` models whether the writer's
append succeeds. -/

def sledContains (idx : List (Nat × List Nat)) (k : Nat) : Bool :=
  idx.any (fun e => e.1 == k)

def sledInsert (idx : List (Nat × List Nat)) (k : Nat) (v : List Nat) :
    List (Nat × List Nat) :=
  if sledContains idx k then
    idx.map (fun e => if e.1 == k then (k, v) else e)
  else
    idx ++ [(k, v)]

structure DbState where
  index : List (Nat × List Nat)
  fileLines : List String
  itemCount : Nat
deriving DecidableEq

inductive SaveResult where
  | Success
  | Duplicate
  | Error
deriving DecidableEq

def check_id (s : DbState) (eventId : Nat) : Bool :=
  sledContains s.index eventId

def save_event (writeOk : Bool) (s : DbState) (ev : NEvent) :
    SaveResult × DbState :=
  if check_id s ev.id then
    (.Duplicate, s)
  else
    let s1 : DbState :=
      { s with index := sledInsert s.index ev.id (u64ToLeBytes (ev.created_at % 2 ^ 64)) }
    if writeOk then
      (.Success,
        { s1 with
          fileLines := s1.fileLines ++ [ev.json]
          itemCount := s1.itemCount + 1 })
    else
      (.Error, s1)

/-! ## Rotating writer (`FlatFileWriter::write_event`, writer.rs lines 50-90)

`UtcTime` abstracts a `DateTime<Utc>` instant: `ymd` is the value printed
by the `%Y%m%d` format (the only projection the code takes), `tod` the
rest of the instant, so that distinct instants on one day exist.
Formatting a date (chrono, not in this repository) is abstracted as
printing the `ymd` token.  Files are a map from path to list of lines;
`tokio::spawn(compress_file path)` is recorded in `compacted`. -/

structure UtcTime where
  ymd : Nat
  tod : Nat
deriving DecidableEq

def fmtDate (t : UtcTime) : String := toString t.ymd

def livePath (dir : String) (t : UtcTime) : String :=
  dir ++ "/events_" ++ fmtDate t ++ ".jsonl"

structure WriterState where
  dir : String
  currentDate : UtcTime
  currentHandle : Option String
deriving DecidableEq

structure WriteEffect where
  state : WriterState
  files : String → List String
  compacted : List String

def writer_write_event (now : UtcTime) (ev : NEvent) (s : WriterState)
    (files : String → List String) : WriteEffect :=
  let rotated :=
    if fmtDate s.currentDate = fmtDate now then (s, ([] : List String))
    else
      match s.currentHandle with
      | some p => ({ s with currentHandle := none, currentDate := now }, [p])
      | none => ({ s with currentDate := now }, [])
  let s1 := rotated.1
  let opened :=
    match s1.currentHandle with
    | some p => (s1, p)
    | none =>
      let p := livePath s1.dir s1.currentDate
      ({ s1 with currentHandle := some p }, p)
  let s2 := opened.1
  let target := opened.2
  { state := s2
    files := fun q => if q = target then files q ++ [ev.json] else files q
    compacted := rotated.2 }

/-! ## Compactor (`FlatFileWriter::compress_file`, writer.rs lines 20-47)

File names are lists of characters; `withExtSet` is Rust's
`Path::with_extension` restricted to a non-empty file name (the portion
before the final dot is kept, except when the name has no dot, or starts
with its only dot, in which case the whole name is kept); the code calls
it with `"jsonl.zstd"`.  Reads are a list of chunks; a chunk is either
`ok bytes` (empty = EOF) or a read error.  The `while let Ok(n)` loop
exits silently on a read error, so `feed` truncates there.  `FsEnv`
injects failures at the fallible steps in source order; the zstd encoder
(external crate) is an arbitrary function `zstd` on the fed bytes. -/

def takeNonDot : List Char → List Char × List Char
  | [] => ([], [])
  | c :: cs =>
    if c = '.' then ([], c :: cs)
    else
      let r := takeNonDot cs
      (c :: r.1, r.2)

def fileStem (name : List Char) : List Char :=
  let r := takeNonDot name.reverse
  match r.2 with
  | [] => name
  | [_] => name
  | _ :: stemRev => stemRev.reverse

def withExtSet (name : List Char) (ext : List Char) : List Char :=
  fileStem name ++ '.' :: ext

inductive Chunk where
  | ok (bytes : List Nat)
  | err
deriving DecidableEq

def feed : List Chunk → List Nat
  | [] => []
  | .ok [] :: _ => []
  | .ok bs :: rest => bs ++ feed rest
  | .err :: _ => []

structure FsEnv where
  openOk : Bool
  createOk : Bool
  writeOk : Bool
  shutdownOk : Bool
  removeOk : Bool
deriving DecidableEq

def allOk : FsEnv := ⟨true, true, true, true, true⟩

structure CompressState where
  outCreated : Bool
  outBytes : Option (List Nat)
  sourceDeleted : Bool
deriving DecidableEq

def compressOutName (name : List Char) : List Char :=
  withExtSet name "jsonl.zstd".toList

def compress_file (env : FsEnv) (zstd : List Nat → List Nat)
    (chunks : List Chunk) : CompressState × Bool :=
  if env.openOk = false then (⟨false, none, false⟩, false)
  else if env.createOk = false then (⟨false, none, false⟩, false)
  else if env.writeOk = false ∧ feed chunks ≠ [] then
    (⟨true, none, false⟩, false)
  else if env.shutdownOk = false then (⟨true, none, false⟩, false)
  else if env.removeOk = false then
    (⟨true, some (zstd (feed chunks)), false⟩, false)
  else (⟨true, some (zstd (feed chunks)), true⟩, true)

/-! ## Policy chain (policy.rs lines 1-40, relay wiring in main.rs)

`KindPolicy::admit_event` accepts exactly the kinds in its configured
set; `NoQuery::admit_query` always rejects.  `main.rs` registers
`query_policy(NoQuery)` and no write policy at all, so the shipped write
chain is empty.  Chain evaluation (first `Reject` short-circuits) is the
relay builder's, modelled from the spec: policies run in declaration
order and the first rejection wins. -/

inductive PolicyResult where
  | Accept
  | Reject (reason : String)
deriving DecidableEq

def kindPolicy_admit_event (kinds : List Nat) (ev : NEvent) : PolicyResult :=
  if ev.kind ∈ kinds then .Accept else .Reject "Kind not accepted"

def noQuery_admit_query : PolicyResult := .Reject "queries not allowed"

def shippedWritePolicies : List (NEvent → PolicyResult) := []

/-- Modelled from the spec: the relay builder evaluates write policies in
declaration order and the first `Reject` short-circuits (the builder
itself is an external crate). -/
def admitEventChain (ps : List (NEvent → PolicyResult)) (ev : NEvent) :
    PolicyResult :=
  match ps with
  | [] => .Accept
  | p :: rest =>
    match p ev with
    | .Accept => admitEventChain rest ev
    | .Reject r => .Reject r

/-! ## Directory listing (`FlatFileDatabase::list_files`, db.rs lines 60-76)

The loop walks the directory entries, skips directories, and pushes every
remaining entry; no file-name check appears in the code. -/

structure DirEntry where
  name : String
  isDir : Bool
  size : Nat
  created : Nat
deriving DecidableEq

def list_files (entries : List DirEntry) : List (String × Nat × Nat) :=
  (entries.filter (fun e => !e.isDir)).map (fun e => (e.name, e.size, e.created))

/-- Follows the spec's words only (for comparison with `list_files`): the
archive pattern `events_YYYYMMDD.jsonl[.zst]`. -/
def specArchivePattern (name : String) : Bool :=
  let cs := name.toList
  decide (cs.take 7 = "events_".toList) &&
    ((cs.drop 7).take 8).all Char.isDigit &&
    (decide (cs.drop 15 = ".jsonl".toList) ||
      decide (cs.drop 15 = ".jsonl.zst".toList))

/-! ## Index scan (`FlatFileDatabase::list_ids`, db.rs lines 94-111)

Entries are raw `(key, value)` byte pairs from sled.  `EventId::from_slice`
(external SDK) succeeds exactly on 32-byte slices.  The closure computes
the timestamp (little-endian u64 when the value is 8 bytes, else 0) and
`map_while` stops at the first `None`. -/

def eventIdFromSlice (k : List Nat) : Option (List Nat) :=
  if k.length = 32 then some k else none

def mapWhileOption (f : α → Option β) : List α → List β
  | [] => []
  | x :: xs =>
    match f x with
    | some y => y :: mapWhileOption f xs
    | none => []

def listIdEntry (e : List Nat × List Nat) : Option (List Nat × Nat) :=
  let ts := if e.2.length ≠ 8 then 0 else leBytesToU64 e.2
  (eventIdFromSlice e.1).map (fun id => (id, ts))

def list_ids (entries : List (List Nat × List Nat)) : List (List Nat × Nat) :=
  mapWhileOption listIdEntry entries

/-! ## SHA-1 and base64 (`derive_accept_key`, http.rs lines 33-41)

Modelled from the spec: the `sha1` and `base64` crates are external; the
functions below follow RFC 3174 (SHA-1 over a byte string) and RFC 4648
(standard base64 alphabet with `=` padding).  32-bit words are `Nat`
reduced mod `2^32`. -/

def w32 (n : Nat) : Nat := n % 4294967296

def rotl (s n : Nat) : Nat :=
  (n * 2 ^ s) % 4294967296 + n / 2 ^ (32 - s) % 4294967296

def shaF (t b c d : Nat) : Nat :=
  if t < 20 then (b &&& c) ||| ((b ^^^ 4294967295) &&& d)
  else if t < 40 then b ^^^ c ^^^ d
  else if t < 60 then (b &&& c) ||| (b &&& d) ||| (c &&& d)
  else b ^^^ c ^^^ d

def shaK (t : Nat) : Nat :=
  if t < 20 then 1518500249
  else if t < 40 then 1859775393
  else if t < 60 then 2400959708
  else 3395469782

def bytesToWordsBE : List Nat → List Nat
  | b0 :: b1 :: b2 :: b3 :: rest =>
    (b0 * 16777216 + b1 * 65536 + b2 * 256 + b3) :: bytesToWordsBE rest
  | _ => []

def beBytes4 (n : Nat) : List Nat :=
  [n / 16777216 % 256, n / 65536 % 256, n / 256 % 256, n % 256]

def beBytes8 (n : Nat) : List Nat :=
  beBytes4 (n / 4294967296) ++ beBytes4 n

def extendW (ws : List Nat) : Nat → List Nat
  | 0 => ws
  | fuel + 1 =>
    let n := ws.length
    extendW
      (ws ++ [rotl 1 (ws.getD (n - 3) 0 ^^^ ws.getD (n - 8) 0 ^^^
        ws.getD (n - 14) 0 ^^^ ws.getD (n - 16) 0)])
      fuel

def sha1Rounds : List Nat → Nat → Nat × Nat × Nat × Nat × Nat →
    Nat × Nat × Nat × Nat × Nat
  | [], _, st => st
  | w :: ws, t, (a, b, c, d, e) =>
    let tmp := w32 (rotl 5 a + shaF t b c d + e + shaK t + w)
    sha1Rounds ws (t + 1) (tmp, a, rotl 30 b, c, d)

def sha1Pad (msg : List Nat) : List Nat :=
  let len := msg.length
  msg ++ 128 :: List.replicate ((64 + 55 - len % 64) % 64) 0 ++
    beBytes8 (len * 8)

def chunks64Aux : Nat → List Nat → List (List Nat)
  | 0, _ => []
  | _, [] => []
  | fuel + 1, x :: xs =>
    (x :: xs).take 64 :: chunks64Aux fuel ((x :: xs).drop 64)

def sha1Block (h : Nat × Nat × Nat × Nat × Nat) (blk : List Nat) :
    Nat × Nat × Nat × Nat × Nat :=
  let ws := extendW (bytesToWordsBE blk) 64
  let r := sha1Rounds ws 0 h
  (w32 (h.1 + r.1), w32 (h.2.1 + r.2.1), w32 (h.2.2.1 + r.2.2.1),
    w32 (h.2.2.2.1 + r.2.2.2.1), w32 (h.2.2.2.2 + r.2.2.2.2))

def sha1 (msg : List Nat) : List Nat :=
  let padded := sha1Pad msg
  let blocks := chunks64Aux padded.length padded
  let h := blocks.foldl sha1Block
    (1732584193, 4023233417, 2562383102, 271733878, 3285377520)
  beBytes4 h.1 ++ beBytes4 h.2.1 ++ beBytes4 h.2.2.1 ++
    beBytes4 h.2.2.2.1 ++ beBytes4 h.2.2.2.2

def b64Alphabet : List Char :=
  "ABCDEFGHIJKLMNOPQRSTUVWXYZabcdefghijklmnopqrstuvwxyz0123456789+/".toList

def b64Char (n : Nat) : Char := b64Alphabet.getD n 'A'

def base64Encode : List Nat → List Char
  | [] => []
  | [b0] => [b64Char (b0 / 4), b64Char (b0 % 4 * 16), '=', '=']
  | [b0, b1] =>
    [b64Char (b0 / 4), b64Char (b0 % 4 * 16 + b1 / 16),
      b64Char (b1 % 16 * 4), '=']
  | b0 :: b1 :: b2 :: rest =>
    b64Char (b0 / 4) :: b64Char (b0 % 4 * 16 + b1 / 16) ::
      b64Char (b1 % 16 * 4 + b2 / 64) :: b64Char (b2 % 64) ::
      base64Encode rest

/-! ## WebSocket accept key and upgrade branch of `HttpServer::call`
(http.rs lines 33-41 and 54-97). -/

def strBytes (s : String) : List Nat := s.toList.map Char.toNat

def wsGuid : List Nat := strBytes "258EAFA5-E914-47DA-95CA-C5AB0DC85B11"

def derive_accept_key (requestKey : List Nat) : List Char :=
  base64Encode (sha1 (requestKey ++ wsGuid))

structure HttpReq where
  headers : List (String × String)
  path : String
deriving DecidableEq

def getHeader (hs : List (String × String)) (k : String) : Option String :=
  (hs.find? (fun h => h.1 == k)).map (fun h => h.2)

/-- ASCII lowercase of a header token (Rust's `to_lowercase` on the
ASCII header values compared here). -/
def asciiLower (c : Char) : Char :=
  if 'A' ≤ c ∧ c ≤ 'Z' then Char.ofNat (c.toNat + 32) else c

def lowerStr (s : String) : String := String.mk (s.toList.map asciiLower)

def isUpgradeReq (req : HttpReq) : Bool :=
  match getHeader req.headers "connection", getHeader req.headers "upgrade" with
  | some c, some w => lowerStr c == "upgrade" && lowerStr w == "websocket"
  | _, _ => false

inductive CallResult where
  | upgrade (status : Nat) (headers : List (String × String))
  | panicNoKey
  | nonUpgrade
deriving DecidableEq

def http_call (req : HttpReq) : CallResult :=
  if isUpgradeReq req then
    match getHeader req.headers "sec-websocket-key" with
    | some k =>
      .upgrade 101
        [("connection", "upgrade"), ("upgrade", "websocket"),
          ("sec-websocket-accept", String.mk (derive_accept_key (strBytes k)))]
    | none => .panicNoKey
  else .nonUpgrade

/-- The actual bytes of the source file: concatenation of every successful
read, used to compare against what the compactor feeds the encoder. -/
def chunkBytes : List Chunk → List Nat
  | [] => []
  | .ok bs :: rest => bs ++ chunkBytes rest
  | .err :: rest => chunkBytes rest

/-- An error-free, EOF-free read sequence (every chunk a non-empty
successful read). -/
def goodChunks : List Chunk → Bool
  | [] => true
  | .ok [] :: _ => false
  | .ok _ :: rest => goodChunks rest
  | .err :: _ => false

/-! # Helper lemmas -/

theorem sledContains_insert (idx : List (Nat × List Nat)) (k : Nat)
    (v : List Nat) : sledContains (sledInsert idx k v) k = true := by
  unfold sledInsert
  by_cases hc : sledContains idx k
  · rw [if_pos hc]
    unfold sledContains at hc ⊢
    rw [List.any_eq_true] at hc ⊢
    obtain ⟨e, he, hk⟩ := hc
    exact ⟨(k, v), List.mem_map.2 ⟨e, he, by simp [hk]⟩, by simp⟩
  · rw [if_neg hc]
    unfold sledContains
    rw [List.any_eq_true]
    exact ⟨(k, v), by simp⟩

theorem takeNonDot_split (xs ys : List Char) (h : '.' ∉ xs) :
    takeNonDot (xs ++ '.' :: ys) = (xs, '.' :: ys) := by
  induction xs with
  | nil => simp [takeNonDot]
  | cons c cs ih =>
    simp only [List.mem_cons, not_or] at h
    have hc : ¬ c = '.' := fun hh => h.1 hh.symm
    simp [takeNonDot, hc, ih h.2]

theorem fileStem_jsonl (stem : List Char) (h : stem ≠ []) :
    fileStem (stem ++ ".jsonl".toList) = stem := by
  obtain ⟨a, t, ht⟩ := List.exists_cons_of_ne_nil (by simpa using h :
    stem.reverse ≠ [])
  have hrev : (stem ++ ".jsonl".toList).reverse
      = "jsonl".toList.reverse ++ '.' :: stem.reverse := by
    simp [List.reverse_append]
  unfold fileStem
  rw [hrev, takeNonDot_split _ _ (by decide), ht]
  show (a :: t).reverse = stem
  rw [← ht, List.reverse_reverse]

theorem feed_eq_chunkBytes (chunks : List Chunk)
    (h : goodChunks chunks = true) : feed chunks = chunkBytes chunks := by
  induction chunks with
  | nil => rfl
  | cons c rest ih =>
    match c with
    | .ok [] => simp [goodChunks] at h
    | .ok (b :: bs) =>
      simp only [goodChunks] at h
      simp [feed, chunkBytes, ih h]
    | .err => simp [goodChunks] at h

theorem livePath_congr (dir : String) (t t' : UtcTime)
    (h : fmtDate t = fmtDate t') : livePath dir t = livePath dir t' := by
  unfold livePath
  rw [h]

theorem writer_files_eq (now : UtcTime) (ev : NEvent) (s : WriterState)
    (files : String → List String) (q : String)
    (hinv : ∀ p, s.currentHandle = some p → p = livePath s.dir s.currentDate) :
    (writer_write_event now ev s files).files q
      = if q = livePath s.dir now then files q ++ [ev.json] else files q := by
  obtain ⟨dir, cd, ch⟩ := s
  by_cases hd : fmtDate cd = fmtDate now
  · have hp := livePath_congr dir cd now hd
    cases ch with
    | none => simp [writer_write_event, hd, hp]
    | some p =>
      have hpp := hinv p rfl
      simp [writer_write_event, hd, hpp, hp]
  · cases ch with
    | none => simp [writer_write_event, hd]
    | some p => simp [writer_write_event, hd]

theorem writer_state_eq (now : UtcTime) (ev : NEvent) (s : WriterState)
    (files : String → List String)
    (hinv : ∀ p, s.currentHandle = some p → p = livePath s.dir s.currentDate) :
    (writer_write_event now ev s files).state
      = ⟨s.dir, if fmtDate s.currentDate = fmtDate now then s.currentDate else now,
          some (livePath s.dir now)⟩ := by
  obtain ⟨dir, cd, ch⟩ := s
  by_cases hd : fmtDate cd = fmtDate now
  · have hp := livePath_congr dir cd now hd
    cases ch with
    | none => simp [writer_write_event, hd, hp]
    | some p =>
      have hpp := hinv p rfl
      simp [writer_write_event, hd, hpp, hp]
  · cases ch with
    | none => simp [writer_write_event, hd]
    | some p => simp [writer_write_event, hd]

theorem writer_compacted_eq (now : UtcTime) (ev : NEvent) (s : WriterState)
    (files : String → List String) :
    (writer_write_event now ev s files).compacted
      = if fmtDate s.currentDate = fmtDate now then [] else s.currentHandle.toList := by
  obtain ⟨dir, cd, ch⟩ := s
  by_cases hd : fmtDate cd = fmtDate now <;> cases ch <;>
    simp [writer_write_event, hd]

/-! # Claims -/

/-- C1: the claim says `get(path)` rejects any URL path whose normalised
form escapes the output directory.  The code (`get_file`, db.rs 79-91)
performs no such check: with output directory `data` and a regular file
at `/secret` (outside `data`), the request path `/../secret` normalises
to `/secret`, escapes the output directory, and `get_file` returns a
file record for it instead of not-found. -/
theorem get_file_traversal_serves_outside :
    get_file (fun p => if p = ["secret"] then some (true, 5) else none)
      ["data"] "/../secret" = some ⟨["secret"], 5⟩ ∧
    underDir ["data"] ["secret"] = false ∧
    normalizePath (["data"] ++ splitPath "../secret") = ["secret"] := by
  refine ⟨by decide, by decide, by decide⟩

/-- C2: two consecutive `save(e)` calls from a state whose index lacks
`e.id` yield `Saved` then `Duplicate` and append exactly one line; and
whenever the index already holds the id, `save` returns `Duplicate`
without touching the index, the file, or the counter
(`save_event`, db.rs 123-161). -/
theorem save_event_idempotent (s s' : DbState) (ev : NEvent)
    (writeOk : Bool) (h : check_id s ev.id = false)
    (h' : check_id s' ev.id = true) :
    (save_event true s ev).1 = .Success ∧
    (save_event true (save_event true s ev).2 ev).1 = .Duplicate ∧
    (save_event true (save_event true s ev).2 ev).2.fileLines
      = s.fileLines ++ [ev.json] ∧
    save_event writeOk s' ev = (.Duplicate, s') := by
  have h1 : save_event true s ev
      = (.Success,
          ⟨sledInsert s.index ev.id (u64ToLeBytes (ev.created_at % 2 ^ 64)),
            s.fileLines ++ [ev.json], s.itemCount + 1⟩) := by
    simp [save_event, h]
  have h2 : save_event true (save_event true s ev).2 ev
      = (.Duplicate, (save_event true s ev).2) := by
    rw [h1]
    simp [save_event, check_id, sledContains_insert]
  refine ⟨by rw [h1], by rw [h2], ?_, by simp [save_event, h']⟩
  rw [h2, h1]

/-- C2 witness: a fresh state, then a state already holding id 1. -/
theorem save_event_idempotent_witness :
    (save_event true ⟨[], [], 0⟩ ⟨1, 2, 3, "e"⟩).1 = .Success ∧
    (save_event true (save_event true ⟨[], [], 0⟩ ⟨1, 2, 3, "e"⟩).2
      ⟨1, 2, 3, "e"⟩).1 = .Duplicate ∧
    (save_event true (save_event true ⟨[], [], 0⟩ ⟨1, 2, 3, "e"⟩).2
      ⟨1, 2, 3, "e"⟩).2.fileLines = ([] : List String) ++ ["e"] ∧
    save_event false ⟨[(1, [])], [], 0⟩ ⟨1, 2, 3, "e"⟩
      = (.Duplicate, ⟨[(1, [])], [], 0⟩) :=
  save_event_idempotent ⟨[], [], 0⟩ ⟨[(1, [])], [], 0⟩ ⟨1, 2, 3, "e"⟩ false
    (by decide) (by decide)

/-- C3: in `save`, the index insert precedes the file append: when the
append fails, `save` returns `Error` with the id already in the index and
the file unchanged; when it succeeds the id is in the index as well, so a
state with a new file line but no index entry is never produced
(`save_event`, db.rs 127-141). -/
theorem save_event_insert_precedes_append (s : DbState) (ev : NEvent)
    (h : check_id s ev.id = false) :
    (save_event false s ev).1 = .Error ∧
    check_id (save_event false s ev).2 ev.id = true ∧
    (save_event false s ev).2.fileLines = s.fileLines ∧
    check_id (save_event true s ev).2 ev.id = true := by
  have h0 : save_event false s ev
      = (.Error,
          ⟨sledInsert s.index ev.id (u64ToLeBytes (ev.created_at % 2 ^ 64)),
            s.fileLines, s.itemCount⟩) := by
    simp [save_event, h]
  have h1 : save_event true s ev
      = (.Success,
          ⟨sledInsert s.index ev.id (u64ToLeBytes (ev.created_at % 2 ^ 64)),
            s.fileLines ++ [ev.json], s.itemCount + 1⟩) := by
    simp [save_event, h]
  refine ⟨by rw [h0], ?_, by rw [h0], ?_⟩
  · rw [h0]
    exact sledContains_insert s.index ev.id _
  · rw [h1]
    exact sledContains_insert s.index ev.id _

/-- C3 witness: an empty state and a concrete event. -/
theorem save_event_insert_precedes_append_witness :
    (save_event false ⟨[], [], 0⟩ ⟨7, 9, 1, "x"⟩).1 = .Error ∧
    check_id (save_event false ⟨[], [], 0⟩ ⟨7, 9, 1, "x"⟩).2 7 = true ∧
    (save_event false ⟨[], [], 0⟩ ⟨7, 9, 1, "x"⟩).2.fileLines
      = ([] : List String) ∧
    check_id (save_event true ⟨[], [], 0⟩ ⟨7, 9, 1, "x"⟩).2 7 = true :=
  save_event_insert_precedes_append ⟨[], [], 0⟩ ⟨7, 9, 1, "x"⟩ (by decide)

/-- C4 counterexample: the claim names the compressed sibling
`events_YYYYMMDD.jsonl.zst`, but `compress_file` (writer.rs 20-47) calls
`with_extension("jsonl.zstd")`, so the output of compacting
`events_20240101.jsonl` is `events_20240101.jsonl.zstd`, not `.zst`. -/
theorem compress_zst_name_counterexample :
    compressOutName "events_20240101.jsonl".toList
      = "events_20240101.jsonl.zstd".toList ∧
    compressOutName "events_20240101.jsonl".toList
      ≠ "events_20240101.jsonl.zst".toList := by
  exact ⟨by decide, by decide⟩

/-- C4 (amended): for every closed file `<stem>.jsonl` handed to the
compactor, when every read succeeds the compactor produces the sibling
named `<stem>.jsonl.zstd` containing the zstd stream of the source's
bytes and then deletes the source. -/
theorem compress_file_amended (zstd : List Nat → List Nat) (stem : List Char)
    (chunks : List Chunk) (h : stem ≠ []) (hg : goodChunks chunks = true) :
    compressOutName (stem ++ ".jsonl".toList) = stem ++ ".jsonl.zstd".toList ∧
    compress_file allOk zstd chunks
      = (⟨true, some (zstd (chunkBytes chunks)), true⟩, true) := by
  constructor
  · rw [compressOutName, withExtSet, fileStem_jsonl stem h]
    congr 1
  · rw [← feed_eq_chunkBytes chunks hg]
    simp [compress_file, allOk]

/-- C4 witness: compacting `events_20240101.jsonl` read in one chunk. -/
theorem compress_file_amended_witness :
    compressOutName ("events_20240101".toList ++ ".jsonl".toList)
      = "events_20240101".toList ++ ".jsonl.zstd".toList ∧
    compress_file allOk (fun bs => bs) [Chunk.ok [1, 2]]
      = (⟨true, some [1, 2], true⟩, true) :=
  compress_file_amended (fun bs => bs) "events_20240101".toList
    [Chunk.ok [1, 2]] (by decide) (by decide)

/-- C5: the claim says any error during compaction (including a read
error) leaves the source file in place.  The loop `while let Ok(n) =
in_file.read(..)` (writer.rs 27) exits silently on a read error, so
compaction continues: with reads `[65]`, then an I/O error, then `[66]`,
the compactor writes a compressed stream of only `[65]` (not the full
`[65, 66]`) and still deletes the source. -/
theorem compress_file_read_error_deletes_source
    (zstd : List Nat → List Nat) :
    compress_file allOk zstd [Chunk.ok [65], Chunk.err, Chunk.ok [66]]
      = (⟨true, some (zstd [65]), true⟩, true) ∧
    feed [Chunk.ok [65], Chunk.err, Chunk.ok [66]] = [65] ∧
    chunkBytes [Chunk.ok [65], Chunk.err, Chunk.ok [66]] = [65, 66] := by
  refine ⟨?_, by decide, by decide⟩
  simp [compress_file, allOk, feed]

/-- C6: every write appends to the file named `events_<wall-clock UTC
date>.jsonl` under the output directory, for any event (the name never
depends on `event.created_at`); existing content of that file is
preserved (append+create); on a day change the old handle's path is
handed to the compactor and a fresh live file is opened
(`write_event`, writer.rs 50-90). -/
theorem write_event_wall_clock (now : UtcTime) (ev ev2 : NEvent)
    (s : WriterState) (files : String → List String)
    (hinv : ∀ p, s.currentHandle = some p → p = livePath s.dir s.currentDate) :
    (writer_write_event now ev s files).files (livePath s.dir now)
      = files (livePath s.dir now) ++ [ev.json] ∧
    (∀ q, q ≠ livePath s.dir now →
      (writer_write_event now ev s files).files q = files q) ∧
    (writer_write_event now ev s files).state
      = (writer_write_event now ev2 s files).state ∧
    (writer_write_event now ev s files).compacted
      = (writer_write_event now ev2 s files).compacted ∧
    (writer_write_event now ev s files).state.currentHandle
      = some (livePath s.dir now) ∧
    (fmtDate s.currentDate ≠ fmtDate now →
      ∀ p, s.currentHandle = some p →
        (writer_write_event now ev s files).compacted = [p]) := by
  refine ⟨?_, ?_, ?_, ?_, ?_, ?_⟩
  · rw [writer_files_eq now ev s files _ hinv]
    simp
  · intro q hq
    rw [writer_files_eq now ev s files q hinv, if_neg hq]
  · rw [writer_state_eq now ev s files hinv, writer_state_eq now ev2 s files hinv]
  · rw [writer_compacted_eq now ev s files, writer_compacted_eq now ev2 s files]
  · rw [writer_state_eq now ev s files hinv]
  · intro hrot p hp
    rw [writer_compacted_eq now ev s files, if_neg hrot, hp]
    rfl

/-- C6 witness: a writer with no open handle on day 1 writing at day 2. -/
theorem write_event_wall_clock_witness :
    (writer_write_event ⟨2, 0⟩ ⟨1, 2, 3, "a"⟩ ⟨"d", ⟨1, 0⟩, none⟩
      (fun _ => [])).files (livePath "d" ⟨2, 0⟩) = ["a"] :=
  (write_event_wall_clock ⟨2, 0⟩ ⟨1, 2, 3, "a"⟩ ⟨4, 5, 6, "b"⟩
    ⟨"d", ⟨1, 0⟩, none⟩ (fun _ => []) (fun _ hp => nomatch hp)).1

/-- C7 counterexample: the shipped configuration (main.rs) registers no
write policy at all, so the chain accepts an event of ephemeral kind
20000; and the only kind-based policy that exists, `KindPolicy`
(policy.rs), accepts an ephemeral kind whenever it is whitelisted. -/
theorem ephemeral_kind_accepted_counterexample :
    admitEventChain shippedWritePolicies ⟨1, 10, 20000, "e"⟩ = .Accept ∧
    kindPolicy_admit_event [20001] ⟨1, 10, 20001, "e"⟩ = .Accept := by
  exact ⟨rfl, by decide⟩

/-- C7 (amended): no EphemeralBlock policy exists.  The shipped write
chain is empty and accepts every event (ephemeral kinds included);
`KindPolicy` accepts exactly the kinds of its configured whitelist, and
`NoQuery` rejects every query. -/
theorem policy_chain_amended (ev : NEvent) (kinds : List Nat) :
    admitEventChain shippedWritePolicies ev = .Accept ∧
    (kindPolicy_admit_event kinds ev = .Accept ↔ ev.kind ∈ kinds) ∧
    noQuery_admit_query = .Reject "queries not allowed" := by
  refine ⟨rfl, ?_, rfl⟩
  unfold kindPolicy_admit_event
  by_cases hk : ev.kind ∈ kinds
  · simp [hk]
  · simp [hk]

/-- C8 counterexample: `list_files` (db.rs 60-76) applies no file-name
filter: a directory holding `notes.txt` (no archive-pattern match) and
the `index` subdirectory yields a listing that includes `notes.txt`. -/
theorem list_files_no_name_filter_counterexample :
    list_files [⟨"notes.txt", false, 5, 7⟩, ⟨"index", true, 0, 0⟩]
      = [("notes.txt", 5, 7)] ∧
    specArchivePattern "notes.txt" = false ∧
    specArchivePattern "events_20240101.jsonl" = true := by
  refine ⟨by decide, by decide, by decide⟩

/-- C8 (amended): `list()` enumerates the output directory
non-recursively, skips every subdirectory (in particular `index`), and
returns every non-directory entry whatever its name. -/
theorem list_files_skips_dirs_only (entries : List DirEntry) (e : DirEntry)
    (he : e ∈ entries) (hnd : e.isDir = false) :
    (e.name, e.size, e.created) ∈ list_files entries ∧
    ∀ x ∈ list_files entries, ∃ e2, e2 ∈ entries ∧ e2.isDir = false ∧
      x = (e2.name, e2.size, e2.created) := by
  constructor
  · unfold list_files
    exact List.mem_map.2 ⟨e, List.mem_filter.2 ⟨he, by simp [hnd]⟩, rfl⟩
  · intro x hx
    unfold list_files at hx
    obtain ⟨e2, he2, hmap⟩ := List.mem_map.1 hx
    obtain ⟨hmem, hfil⟩ := List.mem_filter.1 he2
    exact ⟨e2, hmem, by simpa using hfil, hmap.symm⟩

/-- C8 witness: a one-file directory. -/
theorem list_files_skips_dirs_only_witness :
    ("a.txt", 1, 2) ∈ list_files [⟨"a.txt", false, 1, 2⟩] :=
  (list_files_skips_dirs_only [⟨"a.txt", false, 1, 2⟩] ⟨"a.txt", false, 1, 2⟩
    (by decide) rfl).1

set_option maxRecDepth 10000 in
/-- C9: for every request carrying websocket upgrade headers and a
`Sec-WebSocket-Key` header, the 101 response's `Sec-WebSocket-Accept`
equals `base64(sha1(key || "258EAFA5-E914-47DA-95CA-C5AB0DC85B11"))`
(`derive_accept_key` and `HttpServer::call`, http.rs 33-97); for the
RFC 6455 sample key the value is `s3pPLMBiTxaQ9kYGzzhZRbK+xOo=`. -/
theorem http_upgrade_accept_key (req : HttpReq) (k : String)
    (hup : isUpgradeReq req = true)
    (hk : getHeader req.headers "sec-websocket-key" = some k) :
    http_call req = .upgrade 101
      [("connection", "upgrade"), ("upgrade", "websocket"),
        ("sec-websocket-accept",
          String.mk (base64Encode (sha1 (strBytes k ++ wsGuid))))] ∧
    String.mk (derive_accept_key (strBytes "dGhlIHNhbXBsZSBub25jZQ=="))
      = "s3pPLMBiTxaQ9kYGzzhZRbK+xOo=" := by
  refine ⟨?_, by decide⟩
  simp [http_call, hup, hk, derive_accept_key]

set_option maxRecDepth 10000 in
/-- C9 witness: the RFC 6455 sample handshake. -/
theorem http_upgrade_accept_key_witness :
    http_call ⟨[("connection", "Upgrade"), ("upgrade", "websocket"),
        ("sec-websocket-key", "dGhlIHNhbXBsZSBub25jZQ==")], "/"⟩
      = .upgrade 101 [("connection", "upgrade"), ("upgrade", "websocket"),
          ("sec-websocket-accept", "s3pPLMBiTxaQ9kYGzzhZRbK+xOo=")] := by
  have h := http_upgrade_accept_key
    ⟨[("connection", "Upgrade"), ("upgrade", "websocket"),
        ("sec-websocket-key", "dGhlIHNhbXBsZSBub25jZQ==")], "/"⟩
    "dGhlIHNhbXBsZSBub25jZQ==" (by decide) (by decide)
  exact h.1.trans (by decide)

/-- C10: `list_ids` (db.rs 94-111) is total: it equals the map over the
longest prefix of entries with 32-byte keys, decoding an 8-byte value as
a little-endian u64 and reporting 0 for a value of any other length, and
it drops everything from the first invalid key on. -/
theorem list_ids_characterization (entries : List (List Nat × List Nat)) :
    list_ids entries
      = (entries.takeWhile (fun e => e.1.length == 32)).map
          (fun e => (e.1, if e.2.length = 8 then leBytesToU64 e.2 else 0)) := by
  induction entries with
  | nil => rfl
  | cons e rest ih =>
    by_cases h32 : e.1.length = 32
    · have hfe : listIdEntry e
          = some (e.1, if e.2.length = 8 then leBytesToU64 e.2 else 0) := by
        by_cases h8 : e.2.length = 8 <;>
          simp [listIdEntry, eventIdFromSlice, h32, h8]
      have hstep : list_ids (e :: rest)
          = (e.1, if e.2.length = 8 then leBytesToU64 e.2 else 0) :: list_ids rest := by
        unfold list_ids
        simp only [mapWhileOption, hfe]
      rw [hstep, ih]
      simp [List.takeWhile_cons, h32]
    · have hfe : listIdEntry e = none := by
        simp [listIdEntry, eventIdFromSlice, h32]
      have hstep : list_ids (e :: rest) = [] := by
        unfold list_ids
        simp only [mapWhileOption, hfe]
      rw [hstep]
      simp [List.takeWhile_cons, h32]
